import Mathlib

/-!
Verification of the Fund-Analysis-Platform simulation core.

Shallow embedding of the numerical kernel of the repository.  Python floats
are modelled as real numbers, day-indexed cash-flow dictionaries as
association lists `List (Nat × Real)` (insertion order preserved; same-day
flows are summed on insertion, as the dict-update in the source does), and
the seeded NumPy generator as an abstract deterministic stream of variates.

Two copies of `calculators.py` exist in the repository:
  * `fund_simulation/calculators.py` (namespace `Sim` here) discounts with
    exponent `day / 365.0`;
  * `fund_simulation/fund_simulation/calculators.py` (namespace `Pkg` here)
    discounts with exponent `day / 365.25` and adds the bisection and robust
    solvers.
Both Newton solvers are instances of one parameterised loop `newtonLoop`.
-/

namespace FundPlatform

/-- NPV of a day-indexed cash-flow schedule at a given rate, parameterised by
the day-count divisor `dpy` (365.0 in the top-level module, 365.25 in the
packaged module).  Mirrors the `npv` accumulation inside `calculate_irr`:
`npv = -initial_investment + sum(cf / (1+rate) ** (day/dpy))`. -/
noncomputable def npvWith (dpy : ℝ) (cashFlows : List (ℕ × ℝ))
    (initialInvestment rate : ℝ) : ℝ :=
  -initialInvestment +
    (cashFlows.map (fun p => p.2 / (1 + rate) ^ ((p.1 : ℝ) / dpy))).sum

/-- Derivative accumulator of `calculate_irr`:
`dnpv -= years * cf / (discount_factor * (1 + rate))`. -/
noncomputable def dnpvWith (dpy : ℝ) (cashFlows : List (ℕ × ℝ)) (rate : ℝ) : ℝ :=
  -(cashFlows.map (fun p =>
      ((p.1 : ℝ) / dpy) * p.2 / ((1 + rate) ^ ((p.1 : ℝ) / dpy) * (1 + rate)))).sum

/-- Clamp of the Newton iterate: `rate = max(-0.9999, min(rate, 10.0))`. -/
noncomputable def clampRate (x : ℝ) : ℝ :=
  max (-0.9999) (min x 10)

/-- The Newton-Raphson loop of `calculate_irr`, fuelled by the remaining
iteration count.  Each pass recomputes NPV and its derivative, returns when
`|npv| < tol`, breaks (returning the current rate) when the derivative is
zero, and otherwise updates and clamps the rate.  Exhausted fuel returns the
last estimate, as the source returns `rate` after the `for` loop. -/
noncomputable def newtonLoop (dpy tol : ℝ) (cashFlows : List (ℕ × ℝ))
    (initialInvestment : ℝ) : ℕ → ℝ → ℝ
  | 0, rate => rate
  | Nat.succ n, rate =>
    let npv := npvWith dpy cashFlows initialInvestment rate
    if |npv| < tol then rate
    else
      let dnpv := dnpvWith dpy cashFlows rate
      if dnpv = 0 then rate
      else newtonLoop dpy tol cashFlows initialInvestment n
        (clampRate (rate - npv / dnpv))

end FundPlatform

namespace Sim

open FundPlatform

/-- `calculate_irr` of the top-level `fund_simulation/calculators.py`:
Newton-Raphson from guess 0.1, at most 100 iterations, tolerance `1e-6`,
day-count divisor 365.0 (`years = day / 365.0` in that file). -/
noncomputable def calculate_irr (cashFlows : List (ℕ × ℝ))
    (initialInvestment : ℝ) : ℝ :=
  newtonLoop 365 1e-6 cashFlows initialInvestment 100 0.1

/-- `calculate_holding_period` (identical in both copies of `calculators.py`):
`days = round(365 * log(moic) / log(1 + irr))`, floored at 1; `moic <= 0`
returns the default 365; `irr == -1.0` is clamped to `-0.9999`; a
`ValueError` from `log` of a non-positive argument or a `ZeroDivisionError`
from a zero denominator also return 365.  (Python rounds ties to even; the
tie-free cases coincide with `round` here.) -/
noncomputable def calculate_holding_period (moic irr : ℝ) : ℤ :=
  if moic ≤ 0 then 365
  else
    let irr := if irr = -1 then -0.9999 else irr
    if 1 + irr ≤ 0 then 365
    else if Real.log (1 + irr) = 0 then 365
    else max 1 (round (365 * Real.log moic / Real.log (1 + irr)))

/-- `calculate_moic`: zero for non-positive invested capital, else the ratio. -/
noncomputable def calculate_moic (totalReturned totalInvested : ℝ) : ℝ :=
  if totalInvested ≤ 0 then 0 else totalReturned / totalInvested

end Sim

namespace Pkg

open FundPlatform

/-- `calculate_irr` of `fund_simulation/fund_simulation/calculators.py`:
same Newton loop with day-count divisor 365.25
(`years = day / 365.25` in that file). -/
noncomputable def calculate_irr (cashFlows : List (ℕ × ℝ))
    (initialInvestment : ℝ) : ℝ :=
  newtonLoop 365.25 1e-6 cashFlows initialInvestment 100 0.1

/-- `verify_npv(rate, cash_flows, initial_investment)`: re-evaluates the NPV
at a candidate rate with the 365.25 day count. -/
noncomputable def verify_npv (rate : ℝ) (cashFlows : List (ℕ × ℝ))
    (initialInvestment : ℝ) : ℝ :=
  npvWith 365.25 cashFlows initialInvestment rate

/-- Bisection loop of `calculate_irr_bisection`, threading the NPV at the
current lower bound as the source does. -/
noncomputable def bisectLoop (cashFlows : List (ℕ × ℝ)) (initialInvestment : ℝ) :
    ℕ → ℝ → ℝ → ℝ → ℝ
  | 0, lower, _, upper => (lower + upper) / 2
  | Nat.succ n, lower, npvLower, upper =>
    let mid := (lower + upper) / 2
    let npvMid := npvWith 365.25 cashFlows initialInvestment mid
    if |npvMid| < 1e-6 then mid
    else if npvMid * npvLower < 0 then
      bisectLoop cashFlows initialInvestment n lower npvLower mid
    else
      bisectLoop cashFlows initialInvestment n mid npvMid upper

/-- `calculate_irr_bisection`: bounds `[-0.9999, 10.0]`; if both endpoint
NPVs have the same sign, return the bound with smaller `|NPV|`, else bisect
for at most 100 iterations. -/
noncomputable def calculate_irr_bisection (cashFlows : List (ℕ × ℝ))
    (initialInvestment : ℝ) : ℝ :=
  let lower : ℝ := -0.9999
  let upper : ℝ := 10
  let npvLower := npvWith 365.25 cashFlows initialInvestment lower
  let npvUpper := npvWith 365.25 cashFlows initialInvestment upper
  if npvLower * npvUpper > 0 then
    (if |npvLower| < |npvUpper| then lower else upper)
  else bisectLoop cashFlows initialInvestment 100 lower npvLower upper

/-- The manual Newton loop that `calculate_irr_robust` runs for each retry
guess: on convergence it re-verifies with absolute tolerance 1000 and
otherwise breaks to the next guess (`none`); a zero derivative or exhausted
iterations also move on to the next guess. -/
noncomputable def guessLoop (cashFlows : List (ℕ × ℝ)) (initialInvestment : ℝ) :
    ℕ → ℝ → Option ℝ
  | 0, _ => none
  | Nat.succ n, rate =>
    let npv := npvWith 365.25 cashFlows initialInvestment rate
    if |npv| < 1e-6 then
      if |verify_npv rate cashFlows initialInvestment| < 1000 then some rate
      else none
    else
      let dnpv := dnpvWith 365.25 cashFlows rate
      if dnpv = 0 then none
      else guessLoop cashFlows initialInvestment n (clampRate (rate - npv / dnpv))

/-- The retry stage of `calculate_irr_robust`: the guesses
`[-0.5, 0.0, 0.5, 1.0, 2.0]` tried in order, first verified root wins. -/
noncomputable def tryGuesses (cashFlows : List (ℕ × ℝ)) (initialInvestment : ℝ) :
    List ℝ → Option ℝ
  | [] => none
  | g :: gs =>
    match guessLoop cashFlows initialInvestment 100 g with
    | some r => some r
    | none => tryGuesses cashFlows initialInvestment gs

/-- `calculate_irr_robust`: (1) Newton from the default guess, verified with
absolute-NPV tolerance 1000; (2) Newton retried from the five fixed guesses;
(3) bisection, verified the same way; (4) heuristic floor keyed on the total
cash flow.  Always returns a `(value, converged)` pair; in the real-number
model no arithmetic path raises, so the `try`/`except` guards of the source
are inert. -/
noncomputable def calculate_irr_robust (cashFlows : List (ℕ × ℝ))
    (initialInvestment : ℝ) : ℝ × Bool :=
  let rate1 := calculate_irr cashFlows initialInvestment
  if |verify_npv rate1 cashFlows initialInvestment| < 1000 then (rate1, true)
  else
    match tryGuesses cashFlows initialInvestment [-0.5, 0, 0.5, 1, 2] with
    | some r => (r, true)
    | none =>
      let rateB := calculate_irr_bisection cashFlows initialInvestment
      if |verify_npv rateB cashFlows initialInvestment| < 1000 then (rateB, true)
      else
        let totalCashFlows := (cashFlows.map Prod.snd).sum
        if totalCashFlows < 0 then (-0.9999, false)
        else if totalCashFlows < initialInvestment * 0.5 then (-0.75, false)
        else (0, false)

end Pkg

namespace Sim

open FundPlatform

/-- `models.Investment`: dates are modelled as integer day numbers. -/
structure Investment where
  investment_name : String
  fund_name : String
  entry_date : ℤ
  latest_date : ℤ
  moic : ℝ
  irr : ℝ

instance : Inhabited Investment :=
  ⟨⟨"", "", 0, 0, 0, 0⟩⟩

/-- The fields of `models.SimulationConfiguration` consumed by the core
(identity strings and hashes omitted). -/
structure SimulationConfiguration where
  leverage_rate : ℝ
  cost_of_capital : ℝ
  fee_rate : ℝ
  carry_rate : ℝ
  hurdle_rate : ℝ
  simulation_count : ℕ
  investment_count_mean : ℝ
  investment_count_std : ℝ
  beta_exposure : ℝ

/-- One Monte Carlo draw record (`models.SimulationResult`; the optional
per-investment detail trace is a pure diagnostic side list and is omitted). -/
structure SimulationResult where
  simulation_id : ℕ
  investments_selected : List String
  investment_count : ℕ
  total_invested : ℝ
  total_returned : ℝ
  moic : ℝ
  irr : ℝ
  gross_profit : ℝ
  net_profit : ℝ
  fees_paid : ℝ
  carry_paid : ℝ
  leverage_cost : ℝ
  has_negative_cash_flows : Bool
  irr_converged : Bool
  negative_total_returned : Bool
  cash_flow_schedule : Option (List (ℕ × ℝ))

/-- Abstract model of `np.random.RandomState(seed=42)`: the deterministic
streams of variates the seeded generator yields, addressed by a draw
counter.  `gauss k` is the k-th standard-normal variate, `pick k n` the k-th
uniform integer draw in `[0, n)`; NumPy guarantees the range bound. -/
structure RandomState where
  gauss : ℕ → ℝ
  pick : ℕ → ℕ → ℕ
  pick_lt : ∀ k n, 0 < n → pick k n < n

/-- `generate_portfolio_size`: `round(normal(mean, std))` clamped to
`[1, 2 * max_investments]`.  `RandomState.normal` raises
`ValueError: scale < 0` for a negative standard deviation, modelled as the
error branch; `z` is the standard-normal variate consumed
(`normal(loc, scale) = loc + scale * z`). -/
noncomputable def generate_portfolio_size (mean stdDev : ℝ)
    (maxInvestments : ℕ) (z : ℝ) : Except String ℤ :=
  if stdDev < 0 then .error "scale < 0"
  else .ok (min (max 1 (round (mean + stdDev * z))) (2 * (maxInvestments : ℤ)))

/-- `select_investments`: `count` uniform draws with replacement.
`np.random.choice(0, ...)` raises on an empty universe; in-range indexing is
guaranteed by `RandomState.pick_lt`. -/
def select_investments (investments : List Investment) (count : ℕ)
    (rs : RandomState) (k : ℕ) : Except String (List Investment) :=
  if investments.length = 0 then .error "a must be greater than 0"
  else .ok ((List.range count).map
    (fun j => investments.getD (rs.pick (k + j) investments.length) default))

/-- Dict-style cash-flow posting: add to an existing day entry, else append a
new day key (`cash_flows[days_held] += exit_amount` / fresh assignment). -/
def addFlow (cashFlows : List (ℕ × ℝ)) (day : ℕ) (amount : ℝ) : List (ℕ × ℝ) :=
  if cashFlows.any (fun p => p.1 = day) then
    cashFlows.map (fun p => if p.1 = day then (p.1, p.2 + amount) else p)
  else cashFlows ++ [(day, amount)]

/-- One pass of the Step-3 loop of `run_single_simulation` over a drawn
investment: in alpha mode, a beta-index coverage error skips the investment
(the looked-up beta value itself is tracked only in the omitted diagnostic
trace); otherwise a fixed one-million position is invested and the single
exit cash flow is posted at `days_held`.  State is
(cash flows, total invested, has-negative-cash-flows flag). -/
noncomputable def stepInvestment (useAlpha : Bool)
    (betaIndex : Option (ℤ → ℤ → Except String (ℝ × ℝ)))
    (st : List (ℕ × ℝ) × ℝ × Bool) (inv : Investment) :
    List (ℕ × ℝ) × ℝ × Bool :=
  let skip : Bool :=
    if useAlpha then
      match betaIndex with
      | some lookup =>
        match lookup inv.entry_date inv.latest_date with
        | .error _ => true
        | .ok _ => false
      | none => false
    else false
  if skip then st
  else
    let days_held := (calculate_holding_period inv.moic inv.irr).toNat
    let investment_amount : ℝ := 1000000
    let exit_amount := investment_amount * inv.moic
    (addFlow st.1 days_held exit_amount,
     st.2.1 + investment_amount,
     if exit_amount < 0 then true else st.2.2)

/-- Step 3 of `run_single_simulation`: fold the drawn portfolio into a
day-indexed schedule, the invested total and the negative-cash-flow flag. -/
noncomputable def buildCashFlows (useAlpha : Bool)
    (betaIndex : Option (ℤ → ℤ → Except String (ℝ × ℝ)))
    (selected : List Investment) : List (ℕ × ℝ) × ℝ × Bool :=
  selected.foldl (stepInvestment useAlpha betaIndex) ([], 0, false)

/-- `max(cash_flows.keys()) if cash_flows else 365`. -/
def maxDay (cashFlows : List (ℕ × ℝ)) : ℕ :=
  if cashFlows.isEmpty then 365 else (cashFlows.map Prod.fst).foldr max 0

/-- `sum(cash_flows.values())`. -/
def grossReturned (cashFlows : List (ℕ × ℝ)) : ℝ :=
  (cashFlows.map Prod.snd).sum

/-- The figures produced by the financial-engineering overlay (the
`apply_costs` branch of `run_single_simulation` Step 5 and the body of
`reconstruct_net_performance`). -/
structure CostFigures where
  leverage_amount : ℝ
  total_capital : ℝ
  gross_profit : ℝ
  leverage_cost : ℝ
  management_fees : ℝ
  hurdle_return : ℝ
  carry_paid : ℝ
  net_returned : ℝ
  net_profit : ℝ
  net_moic : ℝ

/-- The overlay formulas shared verbatim by `run_single_simulation`
(lines 207-225) and `reconstruct_net_performance` (lines 324-343). -/
noncomputable def costFigures (gross_returned years_held total_invested : ℝ)
    (config : SimulationConfiguration) : CostFigures :=
  let leverage_amount := total_invested * config.leverage_rate
  let total_capital := total_invested + leverage_amount
  let gross_profit := gross_returned - total_capital
  let leverage_cost := leverage_amount * config.cost_of_capital * years_held
  let management_fees := total_capital * config.fee_rate * years_held
  let hurdle_return := total_capital * (1 + config.hurdle_rate * years_held)
  let excess_return := max 0 (gross_returned - hurdle_return)
  let carry_paid := excess_return * config.carry_rate
  let net_returned := gross_returned - leverage_cost - management_fees - carry_paid
  { leverage_amount := leverage_amount
    total_capital := total_capital
    gross_profit := gross_profit
    leverage_cost := leverage_cost
    management_fees := management_fees
    hurdle_return := hurdle_return
    carry_paid := carry_paid
    net_returned := net_returned
    net_profit := net_returned - total_invested
    net_moic := calculate_moic net_returned total_invested }

/-- Step 10 of `run_single_simulation` and the matching step of
`reconstruct_net_performance`: the gross schedule uniformly scaled by
`net_returned / gross_returned` when the gross total is positive, else by
zero. -/
def netCashFlows (cashFlows : List (ℕ × ℝ)) (reductionFactor : ℝ) :
    List (ℕ × ℝ) :=
  cashFlows.map (fun p => (p.1, p.2 * reductionFactor))

/-- `run_single_simulation`: one Monte Carlo draw.  `k` is the RNG draw
counter on entry; the advanced counter is returned with the result so the
driver threads the shared generator in a fixed order (size draw first, then
one index draw per position). -/
noncomputable def run_single_simulation (investments : List Investment)
    (config : SimulationConfiguration) (simulation_id : ℕ) (rs : RandomState)
    (k : ℕ) (betaIndex : Option (ℤ → ℤ → Except String (ℝ × ℝ)))
    (export_details apply_costs use_alpha : Bool) :
    Except String (SimulationResult × ℕ) :=
  match generate_portfolio_size config.investment_count_mean
      config.investment_count_std investments.length (rs.gauss k) with
  | .error e => .error e
  | .ok sizeInt =>
    let portfolio_size := sizeInt.toNat
    match select_investments investments portfolio_size rs (k + 1) with
    | .error e => .error e
    | .ok selected =>
      let kNext := k + 1 + portfolio_size
      let built := buildCashFlows use_alpha betaIndex selected
      let cash_flows := built.1
      let total_invested := built.2.1
      let has_negative_cash_flows := built.2.2
      let years_held : ℝ := (maxDay cash_flows : ℝ) / 365.25
      let gross_returned := grossReturned cash_flows
      let negative_total_returned : Bool := if gross_returned < 0 then true else false
      let fig :=
        if apply_costs then costFigures gross_returned years_held total_invested config
        else
          { leverage_amount := 0
            total_capital := total_invested
            gross_profit := gross_returned - total_invested
            leverage_cost := 0
            management_fees := 0
            hurdle_return := 0
            carry_paid := 0
            net_returned := gross_returned
            net_profit := gross_returned - total_invested
            net_moic := calculate_moic gross_returned total_invested }
      let reduction_factor := if gross_returned > 0 then fig.net_returned / gross_returned else 0
      let net_cash_flows := netCashFlows cash_flows reduction_factor
      let irrPair :=
        if use_alpha || has_negative_cash_flows then
          Pkg.calculate_irr_robust net_cash_flows total_invested
        else (calculate_irr net_cash_flows total_invested, true)
      .ok
        ({ simulation_id := simulation_id
           investments_selected := selected.map Investment.investment_name
           investment_count := selected.length
           total_invested := total_invested
           total_returned := fig.net_returned
           moic := fig.net_moic
           irr := irrPair.1
           gross_profit := fig.gross_profit
           net_profit := fig.net_profit
           fees_paid := fig.management_fees
           carry_paid := fig.carry_paid
           leverage_cost := fig.leverage_cost
           has_negative_cash_flows := has_negative_cash_flows
           irr_converged := irrPair.2
           negative_total_returned := negative_total_returned
           cash_flow_schedule := if export_details then some cash_flows else none },
         kNext)

/-- The iteration loop of `run_monte_carlo_simulation`.  Results accumulate
in reverse; the progress fractions actually reported to the callback are the
second output (the callback is invoked for side effect only, every 100
iterations, and its return value is discarded by the source). -/
noncomputable def runLoop (investments : List Investment)
    (config : SimulationConfiguration) (rs : RandomState)
    (betaIndex : Option (ℤ → ℤ → Except String (ℝ × ℝ)))
    (export_details apply_costs use_alpha : Bool) (callbackPresent : Bool) :
    ℕ → ℕ → ℕ → List SimulationResult → List ℝ →
    Except String (List SimulationResult × List ℝ)
  | 0, _, _, acc, progress => .ok (acc.reverse, progress.reverse)
  | Nat.succ fuel, i, k, acc, progress =>
    match run_single_simulation investments config i rs k betaIndex
        export_details apply_costs use_alpha with
    | .error e => .error e
    | .ok (res, kNext) =>
      runLoop investments config rs betaIndex export_details apply_costs
        use_alpha callbackPresent fuel (i + 1) kNext (res :: acc)
        (if callbackPresent && (i + 1) % 100 == 0 then
          (((i : ℝ) + 1) / (config.simulation_count : ℝ)) :: progress
         else progress)

/-- `run_monte_carlo_simulation`.  The source constructs
`np.random.RandomState(seed=42)` internally; `rs` is the variate stream of
that fixed-seed generator, so two calls with identical arguments consume
identical streams.  `callbackPresent` records whether a progress callback
was supplied; the fractions that would be passed to it are returned
alongside the results. -/
noncomputable def run_monte_carlo_simulation (investments : List Investment)
    (config : SimulationConfiguration)
    (betaIndex : Option (ℤ → ℤ → Except String (ℝ × ℝ)))
    (export_details apply_costs use_alpha : Bool) (callbackPresent : Bool)
    (rs : RandomState) : Except String (List SimulationResult × List ℝ) :=
  runLoop investments config rs betaIndex export_details apply_costs use_alpha
    callbackPresent config.simulation_count 0 0 [] []

/-- The result sequence of a driver call, discarding the progress trace. -/
def resultsOf (out : Except String (List SimulationResult × List ℝ)) :
    Except String (List SimulationResult) :=
  out.map Prod.fst

end Sim

namespace Stats

/-- Mean of an array, as `np.mean` / `.mean()`. -/
noncomputable def sampleMean (xs : List ℝ) : ℝ :=
  xs.sum / xs.length

/-- Standard deviation of an array with the NumPy default normalisation
(`np.std`, divisor `n`), the convention under which the rescaling in
`_draw_norm_with_exact_moments` is exact. -/
noncomputable def sampleStd (xs : List ℝ) : ℝ :=
  Real.sqrt ((xs.map (fun x => (x - sampleMean xs) ^ 2)).sum / xs.length)

/-- Median as `np.median`: sort, take the middle element, or the mean of the
two middle elements for an even length. -/
noncomputable def sampleMedian (xs : List ℝ) : ℝ :=
  let s := List.insertionSort (· ≤ ·) xs
  if xs.length % 2 = 1 then s.getD (xs.length / 2) 0
  else (s.getD (xs.length / 2 - 1) 0 + s.getD (xs.length / 2) 0) / 2

end Stats

namespace Pkg

/-- `_draw_norm_with_exact_moments` of
`fund_simulation/fund_simulation/beta_simulation.py`.  `draws` models the
`n_paths // 2` variates of `rng.standard_normal`, `shuffle` the in-place
`rng.shuffle` (always a permutation).  Half-normal magnitudes are mirrored
into antithetic pairs, an exact central zero is appended for odd counts, the
sample is rescaled to unit second moment and affinely mapped to the target
mean and sigma. -/
noncomputable def draw_norm_with_exact_moments (n_paths : ℕ) (mean sigma : ℝ)
    (draws : List ℝ) (shuffle : List ℝ → List ℝ) : List ℝ :=
  let a := draws.map (fun x => |x|)
  let z0 := a.map (fun x => -x) ++ a
  let z1 := if n_paths % 2 = 1 then z0 ++ [(0 : ℝ)] else z0
  let z2 := shuffle z1
  let c := Real.sqrt ((z2.map (fun x => x ^ 2)).sum / z2.length)
  (z2.map (fun x => x / c)).map (fun x => mean + sigma * x)

/-- Calendar-day span of the output date axis of
`beta_simulation.simulate_beta_forward` (Variant A), from the last
historical date to the final simulated date:
`end_date - start_date = int(horizon_days / 252 * 365.25)` days
(`calendar_years = horizon_days / 252`;
`end_date = start_date + timedelta(days=int(calendar_years * 365.25))`;
the value is non-negative, so Python int-truncation is the floor). -/
def axisSpanDaysA (horizon_days : ℕ) : ℤ :=
  ⌊((horizon_days : ℚ) / 252) * (365.25 : ℚ)⌋

/-- Calendar-day span of the output date axis of
`beta_simulation_test_fixed.simulate_beta_forward` (Variant B):
`future_dates = [last_date + timedelta(days=i) for i in range(horizon_days + 1)]`,
one calendar day per trading day, with no conversion. -/
def axisSpanDaysB (horizon_days : ℕ) : ℤ :=
  (horizon_days : ℤ)

end Pkg

namespace DataImport

/-- The per-investment kernel of `decompose_historical_beta`
(`data_import.py`): `G_beta = market_moic ** beta_exposure`;
`G_alpha = G_total / G_beta`. -/
noncomputable def alphaMoicOf (totalMoic marketMoic betaExposure : ℝ) : ℝ :=
  totalMoic / marketMoic ^ betaExposure

end DataImport

namespace Pkg

/-- The per-investment kernel of `reconstruct_gross_performance`
(`reconstruction.py` line 96):
`reconstructed_moic = alpha_moic * (beta_moic ** beta_exposure)`. -/
noncomputable def reconstructedMoicOf (alphaMoic betaMoic betaExposure : ℝ) : ℝ :=
  alphaMoic * betaMoic ^ betaExposure

/-- `max(schedule.keys()) if schedule else 365` in
`reconstruct_net_performance`: both a missing and an empty schedule are
falsy in Python. -/
def scheduleMaxDay (schedule : Option (List (ℕ × ℝ))) : ℕ :=
  match schedule with
  | none => 365
  | some cashFlows => Sim.maxDay cashFlows

/-- `reconstruct_net_performance` applied to a single gross result: the same
overlay formulas as the Monte Carlo driver, followed by the uniform net
rescaling of the stored gross schedule and the robust-or-Newton IRR choice;
without a schedule the net IRR defaults to `(0.0, converged=False)`. -/
noncomputable def reconstruct_net_single (g : Sim.SimulationResult)
    (config : Sim.SimulationConfiguration) : Sim.SimulationResult :=
  let total_invested := g.total_invested
  let gross_returned := g.total_returned
  let years_held : ℝ := (scheduleMaxDay g.cash_flow_schedule : ℝ) / 365.25
  let fig := Sim.costFigures gross_returned years_held total_invested config
  let irrPair : ℝ × Bool :=
    match g.cash_flow_schedule with
    | none => (0, false)
    | some cashFlows =>
      if cashFlows.isEmpty then (0, false)
      else
        let reduction_factor :=
          if gross_returned > 0 then fig.net_returned / gross_returned else 0
        let net_cash_flows := Sim.netCashFlows cashFlows reduction_factor
        if g.has_negative_cash_flows then
          calculate_irr_robust net_cash_flows total_invested
        else (calculate_irr net_cash_flows total_invested, true)
  { simulation_id := g.simulation_id
    investments_selected := g.investments_selected
    investment_count := g.investment_count
    total_invested := total_invested
    total_returned := fig.net_returned
    moic := fig.net_moic
    irr := irrPair.1
    gross_profit := fig.gross_profit
    net_profit := fig.net_profit
    fees_paid := fig.management_fees
    carry_paid := fig.carry_paid
    leverage_cost := fig.leverage_cost
    has_negative_cash_flows := g.has_negative_cash_flows
    irr_converged := irrPair.2
    negative_total_returned := g.negative_total_returned
    cash_flow_schedule := g.cash_flow_schedule }

end Pkg

section Theorems

open FundPlatform

/-- Claim C3 (code_bug evidence): Variant A converts the 2520-trading-day
horizon into `int(2520/252 * 365.25) = 3652` calendar days, which is the
floor of `horizon_days * 365.25 / 252` for every horizon, but Variant B
spans exactly 2520 calendar days — one calendar day per trading day,
without the required conversion. -/
theorem claim_C3_axis_span_eval :
    Pkg.axisSpanDaysA 2520 = 3652 ∧
    Pkg.axisSpanDaysB 2520 = 2520 ∧
    Pkg.axisSpanDaysB 2520 ≠ ⌊((2520 : ℚ) * (365.25 : ℚ)) / 252⌋ ∧
    (∀ h : ℕ, Pkg.axisSpanDaysA h = ⌊((h : ℚ) * (365.25 : ℚ)) / 252⌋) := by
  refine ⟨?_, rfl, ?_, ?_⟩
  · norm_num [Pkg.axisSpanDaysA]
  · norm_num [Pkg.axisSpanDaysB]
  · intro h
    unfold Pkg.axisSpanDaysA
    congr 1
    ring

/-- Claim C7: decomposing a total MOIC against a market MOIC and
reconstructing against the same market path returns the total exactly, in
particular within the 1e-6 tolerance of the claim. -/
theorem claim_C7_roundtrip : ∀ M m β : ℝ, 0 < M → 0 < m →
    Pkg.reconstructedMoicOf (DataImport.alphaMoicOf M m β) m β = M ∧
    |Pkg.reconstructedMoicOf (DataImport.alphaMoicOf M m β) m β - M| ≤ 1e-6 := by
  intro M m β _ hm
  have hpow : m ^ β ≠ 0 := ne_of_gt (Real.rpow_pos_of_pos hm β)
  have heq : Pkg.reconstructedMoicOf (DataImport.alphaMoicOf M m β) m β = M := by
    unfold Pkg.reconstructedMoicOf DataImport.alphaMoicOf
    field_simp
  refine ⟨heq, ?_⟩
  rw [heq, sub_self, abs_zero]
  norm_num

/-- Witness for C7 at `M = 2`, `m = 1.5`, `β = 1`. -/
theorem claim_C7_witness :
    (0 : ℝ) < 2 ∧ (0 : ℝ) < 1.5 ∧
    (Pkg.reconstructedMoicOf (DataImport.alphaMoicOf 2 1.5 1) 1.5 1 = 2 ∧
     |Pkg.reconstructedMoicOf (DataImport.alphaMoicOf 2 1.5 1) 1.5 1 - 2| ≤ 1e-6) :=
  ⟨by norm_num, by norm_num, claim_C7_roundtrip 2 1.5 1 (by norm_num) (by norm_num)⟩

/-- Claim C8 counterexample: with a negative standard deviation the
portfolio-size sampler raises (`np.random.RandomState.normal` rejects
`scale < 0`), so at `mean = 5`, `std = -1`, a 10-investment universe and any
variate it does not return a clamped integer. -/
theorem claim_C8_counterexample :
    ¬ ∃ n : ℤ, Sim.generate_portfolio_size 5 (-1) 10 0 = .ok n ∧
      1 ≤ n ∧ n ≤ 20 := by
  rw [Sim.generate_portfolio_size, if_pos (by norm_num : (-1 : ℝ) < 0)]
  rintro ⟨n, hn, -, -⟩
  exact Except.noConfusion hn

/-- Claim C8 as amended: for every non-negative standard deviation, every
mean, every variate and every non-empty universe, the generated size is an
integer in `[1, 2 * |universe|]` and no error is raised. -/
theorem claim_C8_amended : ∀ (mean stdDev z : ℝ) (maxInv : ℕ),
    0 ≤ stdDev → 1 ≤ maxInv →
    ∃ n : ℤ, Sim.generate_portfolio_size mean stdDev maxInv z = .ok n ∧
      1 ≤ n ∧ n ≤ 2 * (maxInv : ℤ) := by
  intro mean stdDev z maxInv hstd hmax
  rw [Sim.generate_portfolio_size, if_neg (not_lt.mpr hstd)]
  refine ⟨_, rfl, ?_, min_le_right _ _⟩
  have h2 : (1 : ℤ) ≤ 2 * (maxInv : ℤ) := by
    have : (1 : ℤ) ≤ (maxInv : ℤ) := by exact_mod_cast hmax
    linarith
  exact le_min (le_max_left _ _) h2

/-- Witness for the amended C8 at `mean = 3`, `std = 1`, 10 investments. -/
theorem claim_C8_witness :
    (0 : ℝ) ≤ 1 ∧ 1 ≤ 10 ∧
    ∃ n : ℤ, Sim.generate_portfolio_size 3 1 10 0 = .ok n ∧
      1 ≤ n ∧ n ≤ 2 * (10 : ℤ) :=
  ⟨by norm_num, by norm_num, claim_C8_amended 3 1 0 10 (by norm_num) (by norm_num)⟩

/-- Claim C9: the holding-period function returns
`max 1 (round (365 * ln moic / ln (1 + irr)))` whenever the expression is
defined, 365 when `moic ≤ 0` or the logarithm argument is non-positive,
clamps `irr = -1` to `-0.9999` before the logarithm, and maps `(1.0, 0.0)`
to the defined default 365 (the zero-division case). -/
theorem claim_C9_holding_period :
    (∀ m i : ℝ, m ≤ 0 → Sim.calculate_holding_period m i = 365) ∧
    (∀ m i : ℝ, 0 < m → i ≠ -1 → 0 < 1 + i → Real.log (1 + i) ≠ 0 →
      Sim.calculate_holding_period m i =
        max 1 (round (365 * Real.log m / Real.log (1 + i)))) ∧
    (∀ m : ℝ, 0 < m →
      Sim.calculate_holding_period m (-1) =
        max 1 (round (365 * Real.log m / Real.log (1 + (-0.9999 : ℝ))))) ∧
    (∀ m i : ℝ, 0 < m → i ≠ -1 → 1 + i ≤ 0 →
      Sim.calculate_holding_period m i = 365) ∧
    Sim.calculate_holding_period 1 0 = 365 := by
  refine ⟨?_, ?_, ?_, ?_, ?_⟩
  · intro m i hm
    rw [Sim.calculate_holding_period, if_pos hm]
  · intro m i hm hne hpos hlog
    rw [Sim.calculate_holding_period, if_neg (not_le.mpr hm)]
    simp only [if_neg hne, if_neg (not_le.mpr hpos), if_neg hlog]
  · intro m hm
    have hlog : Real.log (1 + (-0.9999 : ℝ)) ≠ 0 := by
      intro h
      rcases Real.log_eq_zero.mp h with h | h | h <;> norm_num at h
    rw [Sim.calculate_holding_period, if_neg (not_le.mpr hm)]
    simp only [show ((-1 : ℝ) = -1) ↔ True from iff_of_true rfl trivial, if_true,
      if_neg (by norm_num : ¬ (1 + (-0.9999 : ℝ) ≤ 0)), if_neg hlog]
  · intro m i hm hne hle
    rw [Sim.calculate_holding_period, if_neg (not_le.mpr hm)]
    simp only [if_neg hne, if_pos hle]
  · rw [Sim.calculate_holding_period, if_neg (by norm_num : ¬ (1:ℝ) ≤ 0)]
    simp only [if_neg (by norm_num : (0:ℝ) ≠ -1),
      if_neg (by norm_num : ¬ (1 + (0:ℝ) ≤ 0))]
    rw [if_pos (by norm_num [Real.log_one] : Real.log (1 + (0:ℝ)) = 0)]

/-- Witness for C9: each guarded branch instantiated concretely. -/
theorem claim_C9_witness :
    Sim.calculate_holding_period (-1) 7 = 365 ∧
    Sim.calculate_holding_period 2 1 =
      max 1 (round (365 * Real.log 2 / Real.log (1 + (1:ℝ)))) ∧
    Sim.calculate_holding_period 5 (-1) =
      max 1 (round (365 * Real.log 5 / Real.log (1 + (-0.9999 : ℝ)))) ∧
    Sim.calculate_holding_period 3 (-2) = 365 ∧
    Sim.calculate_holding_period 1 0 = 365 :=
  ⟨claim_C9_holding_period.1 (-1) 7 (by norm_num),
   claim_C9_holding_period.2.1 2 1 (by norm_num) (by norm_num) (by norm_num)
     (by intro h; rcases Real.log_eq_zero.mp h with h | h | h <;> norm_num at h),
   claim_C9_holding_period.2.2.1 5 (by norm_num),
   claim_C9_holding_period.2.2.2.1 3 (-2) (by norm_num) (by norm_num) (by norm_num),
   claim_C9_holding_period.2.2.2.2⟩

/-- Claim C5 counterexample: the NPV that the top-level
`calculate_irr` runs Newton on differs from the claimed
`-initial + sum(cf / (1+rate)^(day/365.25))` already at the schedule with a
single unit cash flow on day 365, initial investment 0 and rate 0.1: the
top-level module discounts with exponent `day/365.0`, giving
`1/1.1` instead of `1/1.1^(365/365.25)`. -/
theorem claim_C5_counterexample :
    FundPlatform.npvWith 365 [(365, 1)] 0 0.1 ≠
      FundPlatform.npvWith 365.25 [(365, 1)] 0 0.1 := by
  have hb : (1 : ℝ) < 1 + 0.1 := by norm_num
  have hlt : ((1 + 0.1 : ℝ)) ^ (((365 : ℕ) : ℝ) / 365.25) <
      ((1 + 0.1 : ℝ)) ^ (((365 : ℕ) : ℝ) / 365) := by
    rw [Real.rpow_lt_rpow_left_iff hb]
    rw [div_lt_div_iff₀ (by norm_num) (by norm_num)]
    norm_num
  have hpos : (0 : ℝ) < (1 + 0.1 : ℝ) ^ (((365 : ℕ) : ℝ) / 365.25) :=
    Real.rpow_pos_of_pos (by norm_num) _
  have hne : (1 : ℝ) / ((1 + 0.1 : ℝ) ^ (((365 : ℕ) : ℝ) / 365)) ≠
      1 / ((1 + 0.1 : ℝ) ^ (((365 : ℕ) : ℝ) / 365.25)) :=
    ne_of_lt (one_div_lt_one_div_of_lt hpos hlt)
  simpa [FundPlatform.npvWith] using hne

/-- Claim C5 as amended: both `calculate_irr` implementations are the claimed
Newton-Raphson loop — initial guess 0.10, at most 100 iterations, acceptance
at `|NPV| < 1e-6`, clamping to `[-0.9999, 10.0]` after each update, last
estimate returned on non-convergence — but the packaged module discounts
with exponent `day/365.25` while the top-level module uses `day/365.0`; the
loop only ever returns the current (initial or clamped) estimate. -/
theorem claim_C5_amended :
    (∀ cfs init, Sim.calculate_irr cfs init =
      FundPlatform.newtonLoop 365 1e-6 cfs init 100 0.1) ∧
    (∀ cfs init, Pkg.calculate_irr cfs init =
      FundPlatform.newtonLoop 365.25 1e-6 cfs init 100 0.1) ∧
    (∀ dpy cfs init rate, FundPlatform.npvWith dpy cfs init rate =
      -init + (cfs.map (fun p => p.2 / (1 + rate) ^ ((p.1 : ℝ) / dpy))).sum) ∧
    (∀ dpy tol cfs init (n : ℕ) (r : ℝ),
      FundPlatform.newtonLoop dpy tol cfs init n r = r ∨
      (-0.9999 ≤ FundPlatform.newtonLoop dpy tol cfs init n r ∧
        FundPlatform.newtonLoop dpy tol cfs init n r ≤ 10)) := by
  refine ⟨fun _ _ => rfl, fun _ _ => rfl, fun _ _ _ _ => rfl, ?_⟩
  intro dpy tol cfs init n
  induction n with
  | zero => exact fun r => Or.inl rfl
  | succ n ih =>
    intro r
    rw [FundPlatform.newtonLoop]
    by_cases h1 : |FundPlatform.npvWith dpy cfs init r| < tol
    · exact Or.inl (by simp only [if_pos h1])
    · simp only [if_neg h1]
      by_cases h2 : FundPlatform.dnpvWith dpy cfs r = 0
      · exact Or.inl (by simp only [if_pos h2])
      · simp only [if_neg h2]
        rcases ih (FundPlatform.clampRate
          (r - FundPlatform.npvWith dpy cfs init r / FundPlatform.dnpvWith dpy cfs r)) with
          h | h
        · refine Or.inr ?_
          rw [h]
          exact ⟨le_max_left _ _, max_le (by norm_num) (min_le_right _ _)⟩
        · exact Or.inr h

/-- NPV of an empty schedule is minus the initial investment. -/
theorem npvWith_nil (dpy init rate : ℝ) :
    FundPlatform.npvWith dpy [] init rate = -init := by
  simp [FundPlatform.npvWith]

/-- The NPV derivative of an empty schedule vanishes. -/
theorem dnpvWith_nil (dpy rate : ℝ) : FundPlatform.dnpvWith dpy [] rate = 0 := by
  simp [FundPlatform.dnpvWith]

/-- A Newton iterate already inside tolerance is returned unchanged. -/
theorem newtonLoop_converged (dpy tol : ℝ) (cfs : List (ℕ × ℝ)) (init r : ℝ)
    (h : |FundPlatform.npvWith dpy cfs init r| < tol) :
    ∀ n, FundPlatform.newtonLoop dpy tol cfs init n r = r
  | 0 => rfl
  | n + 1 => by rw [FundPlatform.newtonLoop]; simp only [if_pos h]

/-- On an empty schedule the Newton loop breaks at once on the zero
derivative (or never runs) and returns the current rate. -/
theorem newtonLoop_nil (dpy tol init r : ℝ)
    (h : ¬ |FundPlatform.npvWith dpy [] init r| < tol) :
    ∀ n, FundPlatform.newtonLoop dpy tol [] init n r = r
  | 0 => rfl
  | n + 1 => by
    rw [FundPlatform.newtonLoop]
    simp only [if_neg h, if_pos (dnpvWith_nil dpy r)]

/-- On an empty schedule every retry guess fails with a zero derivative. -/
theorem guessLoop_nil (init r : ℝ)
    (h : ¬ |FundPlatform.npvWith 365.25 [] init r| < 1e-6) :
    ∀ n, Pkg.guessLoop [] init n r = none
  | 0 => rfl
  | n + 1 => by
    rw [Pkg.guessLoop]
    simp only [if_neg h, if_pos (dnpvWith_nil (365.25 : ℝ) r)]

/-- On an empty schedule the whole retry stage fails. -/
theorem tryGuesses_nil (init : ℝ)
    (h : ∀ r, ¬ |FundPlatform.npvWith 365.25 [] init r| < 1e-6) :
    ∀ gs, Pkg.tryGuesses [] init gs = none
  | [] => rfl
  | g :: gs => by
    rw [Pkg.tryGuesses, guessLoop_nil init g (h g) 100]
    exact tryGuesses_nil init h gs

/-- Claim C4: the robust IRR solver follows the four-stage fallback order:
a verified Newton answer is returned converged; when the default Newton, all
five retry guesses and bisection fail verification, the heuristic floor is
returned with `converged = false` — `-0.9999` for a negative total cash
flow, `-0.75` below half the invested capital, `0.0` otherwise.  The
function is total in this model, so no call raises. -/
theorem claim_C4_robust_fallback :
    (∀ (cfs : List (ℕ × ℝ)) (init : ℝ),
      |Pkg.verify_npv (Pkg.calculate_irr cfs init) cfs init| < 1000 →
      Pkg.calculate_irr_robust cfs init = (Pkg.calculate_irr cfs init, true)) ∧
    (∀ (cfs : List (ℕ × ℝ)) (init : ℝ),
      ¬ |Pkg.verify_npv (Pkg.calculate_irr cfs init) cfs init| < 1000 →
      Pkg.tryGuesses cfs init [-0.5, 0, 0.5, 1, 2] = none →
      ¬ |Pkg.verify_npv (Pkg.calculate_irr_bisection cfs init) cfs init| < 1000 →
      Pkg.calculate_irr_robust cfs init =
        (if (cfs.map Prod.snd).sum < 0 then ((-0.9999 : ℝ), false)
         else if (cfs.map Prod.snd).sum < init * 0.5 then ((-0.75 : ℝ), false)
         else ((0 : ℝ), false))) := by
  constructor
  · intro cfs init h
    rw [Pkg.calculate_irr_robust]
    simp only [if_pos h]
  · intro cfs init h1 h2 h3
    rw [Pkg.calculate_irr_robust]
    simp only [if_neg h1, h2, if_neg h3]

/-- Witness for C4: the schedule with one immediate 500 cash flow converges
in stage one; the empty schedule with 5000 invested fails every stage and
lands on the `-0.75` floor. -/
theorem claim_C4_witness :
    (|Pkg.verify_npv (Pkg.calculate_irr [((0 : ℕ), (500 : ℝ))] 500)
        [((0 : ℕ), (500 : ℝ))] 500| < 1000 ∧
      Pkg.calculate_irr_robust [((0 : ℕ), (500 : ℝ))] 500 =
        (Pkg.calculate_irr [((0 : ℕ), (500 : ℝ))] 500, true)) ∧
    (¬ |Pkg.verify_npv (Pkg.calculate_irr ([] : List (ℕ × ℝ)) 5000) [] 5000| < 1000 ∧
      Pkg.tryGuesses ([] : List (ℕ × ℝ)) 5000 [-0.5, 0, 0.5, 1, 2] = none ∧
      ¬ |Pkg.verify_npv (Pkg.calculate_irr_bisection ([] : List (ℕ × ℝ)) 5000)
          [] 5000| < 1000 ∧
      Pkg.calculate_irr_robust ([] : List (ℕ × ℝ)) 5000 = (-0.75, false)) := by
  have hnpv0 : FundPlatform.npvWith 365.25 [((0 : ℕ), (500 : ℝ))] 500 0.1 = 0 := by
    norm_num [FundPlatform.npvWith, Real.rpow_zero]
  have hirr : Pkg.calculate_irr [((0 : ℕ), (500 : ℝ))] 500 = 0.1 :=
    newtonLoop_converged 365.25 1e-6 _ 500 0.1 (by rw [hnpv0]; norm_num) 100
  have hver : |Pkg.verify_npv (Pkg.calculate_irr [((0 : ℕ), (500 : ℝ))] 500)
      [((0 : ℕ), (500 : ℝ))] 500| < 1000 := by
    rw [hirr, Pkg.verify_npv, hnpv0]
    norm_num
  have hany : ∀ r, ¬ |FundPlatform.npvWith 365.25 [] (5000 : ℝ) r| < 1e-6 := by
    intro r
    rw [npvWith_nil]
    norm_num
  have hirr2 : Pkg.calculate_irr ([] : List (ℕ × ℝ)) 5000 = 0.1 :=
    newtonLoop_nil 365.25 1e-6 5000 0.1 (hany 0.1) 100
  have h1 : ¬ |Pkg.verify_npv (Pkg.calculate_irr ([] : List (ℕ × ℝ)) 5000)
      [] 5000| < 1000 := by
    rw [hirr2, Pkg.verify_npv, npvWith_nil]
    norm_num
  have h2 : Pkg.tryGuesses ([] : List (ℕ × ℝ)) 5000 [-0.5, 0, 0.5, 1, 2] = none :=
    tryGuesses_nil 5000 hany _
  have hbis : Pkg.calculate_irr_bisection ([] : List (ℕ × ℝ)) 5000 = 10 := by
    rw [Pkg.calculate_irr_bisection]
    norm_num [npvWith_nil]
  have h3 : ¬ |Pkg.verify_npv (Pkg.calculate_irr_bisection ([] : List (ℕ × ℝ)) 5000)
      [] 5000| < 1000 := by
    rw [hbis, Pkg.verify_npv, npvWith_nil]
    norm_num
  refine ⟨⟨hver, claim_C4_robust_fallback.1 _ _ hver⟩, h1, h2, h3, ?_⟩
  rw [claim_C4_robust_fallback.2 [] 5000 h1 h2 h3]
  norm_num

/-- A map whose values vanish sums to zero. -/
theorem sum_map_zero {α : Type} (l : List α) (f : α → ℝ)
    (h : ∀ x ∈ l, f x = 0) : (l.map f).sum = 0 := by
  induction l with
  | nil => simp
  | cons a l ih =>
    simp only [List.map_cons, List.sum_cons, h a (List.mem_cons_self a l)]
    rw [zero_add]
    exact ih (fun x hx => h x (List.mem_cons_of_mem a hx))

/-- With an all-zero schedule the NPV is `-initial` and the derivative is
zero at every rate. -/
theorem npv_dnpv_of_zero_flows (dpy : ℝ) (cfs : List (ℕ × ℝ)) (init r : ℝ)
    (h : ∀ p ∈ cfs, p.2 = 0) :
    FundPlatform.npvWith dpy cfs init r = -init ∧
      FundPlatform.dnpvWith dpy cfs r = 0 := by
  constructor
  · rw [FundPlatform.npvWith, sum_map_zero cfs _ (fun p hp => by rw [h p hp, zero_div]),
      add_zero]
  · rw [FundPlatform.dnpvWith, sum_map_zero cfs _ (fun p hp => by
      rw [h p hp, mul_zero, zero_div]), neg_zero]

/-- A zero derivative freezes the Newton loop at the current rate. -/
theorem newtonLoop_stuck (dpy tol : ℝ) (cfs : List (ℕ × ℝ)) (init r : ℝ)
    (hd : FundPlatform.dnpvWith dpy cfs r = 0) :
    ∀ n, FundPlatform.newtonLoop dpy tol cfs init n r = r
  | 0 => rfl
  | n + 1 => by
    rw [FundPlatform.newtonLoop]
    by_cases hc : |FundPlatform.npvWith dpy cfs init r| < tol
    · simp only [if_pos hc]
    · simp only [if_neg hc, if_pos hd]

/-- The top-level Newton solver returns the initial guess 0.1 on any
all-zero schedule. -/
theorem calculate_irr_zero_flows (cfs : List (ℕ × ℝ)) (init : ℝ)
    (h : ∀ p ∈ cfs, p.2 = 0) : Sim.calculate_irr cfs init = 0.1 :=
  newtonLoop_stuck 365 1e-6 cfs init 0.1
    ((npv_dnpv_of_zero_flows 365 cfs init 0.1 h).2) 100

/-- Posting a zero amount keeps an all-zero schedule all-zero. -/
theorem addFlow_zero (cfs : List (ℕ × ℝ)) (d : ℕ)
    (h : ∀ p ∈ cfs, p.2 = 0) : ∀ p ∈ Sim.addFlow cfs d 0, p.2 = 0 := by
  intro p hp
  rw [Sim.addFlow] at hp
  by_cases hc : cfs.any (fun q => q.1 = d)
  · rw [if_pos hc] at hp
    obtain ⟨q, hq, hqe⟩ := List.mem_map.mp hp
    by_cases hqd : q.1 = d
    · rw [if_pos hqd] at hqe
      rw [← hqe]
      simp [h q hq]
    · rw [if_neg hqd] at hqe
      rw [← hqe]
      exact h q hq
  · rw [if_neg hc] at hp
    rcases List.mem_append.mp hp with hp | hp
    · exact h p hp
    · simp only [List.mem_singleton] at hp
      rw [hp]

/-- Scaling an all-zero schedule leaves it all-zero, whatever the factor. -/
theorem netCashFlows_zero (cfs : List (ℕ × ℝ)) (rf : ℝ)
    (h : ∀ p ∈ cfs, p.2 = 0) : ∀ p ∈ Sim.netCashFlows cfs rf, p.2 = 0 := by
  intro p hp
  obtain ⟨q, hq, hqe⟩ := List.mem_map.mp hp
  rw [← hqe]
  simp [h q hq]

/-- The Step-10 IRR dispatch of `run_single_simulation` in non-alpha mode
with no negative cash flows and an all-zero gross schedule: plain Newton on
the (all-zero) net schedule, hence `(0.1, converged)`. -/
theorem irrPair_zero (cfs : List (ℕ × ℝ)) (rf total : ℝ) (b : Bool)
    (hb : b = false) (h : ∀ p ∈ cfs, p.2 = 0) :
    (if (false || b) = true then
        Pkg.calculate_irr_robust (Sim.netCashFlows cfs rf) total
      else (Sim.calculate_irr (Sim.netCashFlows cfs rf) total, true)).1 = 0.1 ∧
    (if (false || b) = true then
        Pkg.calculate_irr_robust (Sim.netCashFlows cfs rf) total
      else (Sim.calculate_irr (Sim.netCashFlows cfs rf) total, true)).2 = true := by
  subst hb
  rw [if_neg (by simp)]
  exact ⟨calculate_irr_zero_flows _ _ (netCashFlows_zero cfs rf h), rfl⟩

/-- Folding a portfolio of zero-MOIC investments in non-alpha mode keeps the
schedule all-zero and never sets the negative-cash-flow flag. -/
theorem buildState_zero (bi : Option (ℤ → ℤ → Except String (ℝ × ℝ))) :
    ∀ (selected : List Sim.Investment), (∀ x ∈ selected, x.moic = 0) →
    ∀ st : List (ℕ × ℝ) × ℝ × Bool, (∀ p ∈ st.1, p.2 = 0) → st.2.2 = false →
    (∀ p ∈ (List.foldl (Sim.stepInvestment false bi) st selected).1, p.2 = 0) ∧
      (List.foldl (Sim.stepInvestment false bi) st selected).2.2 = false := by
  intro selected
  induction selected with
  | nil => exact fun _ st h1 h2 => ⟨h1, h2⟩
  | cons x l ih =>
    intro hsel st h1 h2
    rw [List.foldl_cons]
    have hx : x.moic = 0 := hsel x (List.mem_cons_self x l)
    have hstep0 : Sim.stepInvestment false bi st x =
        (Sim.addFlow st.1 ((Sim.calculate_holding_period x.moic x.irr).toNat)
          ((1000000 : ℝ) * x.moic), st.2.1 + 1000000,
         if (1000000 : ℝ) * x.moic < 0 then true else st.2.2) := rfl
    have hstep : Sim.stepInvestment false bi st x =
        (Sim.addFlow st.1 ((Sim.calculate_holding_period x.moic x.irr).toNat) 0,
         st.2.1 + 1000000, st.2.2) := by
      rw [hstep0, hx, mul_zero, if_neg (lt_irrefl (0 : ℝ))]
    rw [hstep]
    exact ih (fun y hy => hsel y (List.mem_cons_of_mem x hy)) _
      (addFlow_zero st.1 _ h1) h2

/-- Claim C10: on an all-zero net schedule the first Newton pass has
`NPV = -initial` and a zero derivative, so `calculate_irr` returns the
initial guess 0.1; consequently a total-loss draw (every investment MOIC
zero) in non-alpha mode reports `irr = 0.1` with `irr_converged = true`. -/
theorem claim_C10_zero_flows :
    (∀ (cfs : List (ℕ × ℝ)) (init r : ℝ), (∀ p ∈ cfs, p.2 = 0) →
      FundPlatform.npvWith 365 cfs init r = -init ∧
        FundPlatform.dnpvWith 365 cfs r = 0) ∧
    (∀ (cfs : List (ℕ × ℝ)) (init : ℝ), 0 < init → (∀ p ∈ cfs, p.2 = 0) →
      Sim.calculate_irr cfs init = 0.1) ∧
    (∀ (investments : List Sim.Investment) (config : Sim.SimulationConfiguration)
      (sid : ℕ) (rs : Sim.RandomState) (k : ℕ)
      (bi : Option (ℤ → ℤ → Except String (ℝ × ℝ))) (ed ac : Bool),
      0 ≤ config.investment_count_std → investments ≠ [] →
      (∀ x ∈ investments, x.moic = 0) →
      ∃ res kn,
        Sim.run_single_simulation investments config sid rs k bi ed ac false =
          .ok (res, kn) ∧ res.irr = 0.1 ∧ res.irr_converged = true) := by
  refine ⟨fun cfs init r h => npv_dnpv_of_zero_flows 365 cfs init r h,
    fun cfs init _ h => calculate_irr_zero_flows cfs init h, ?_⟩
  intro investments config sid rs k bi ed ac hstd hne hmoic
  have hlen : investments.length ≠ 0 := fun h => hne (List.length_eq_zero.mp h)
  have hsel : ∀ i : ℕ, (investments.getD i default).moic = 0 := by
    intro i
    by_cases hi : i < investments.length
    · rw [List.getD_eq_getElem investments default hi]
      exact hmoic _ (List.getElem_mem hi)
    · rw [List.getD_eq_default investments default (le_of_not_lt hi)]
      rfl
  have hmap : ∀ js : List ℕ, ∀ x ∈ js.map
      (fun j => investments.getD (rs.pick (k + 1 + j) investments.length) default),
      x.moic = 0 := by
    intro js x hx
    obtain ⟨j, _, hj⟩ := List.mem_map.mp hx
    rw [← hj]
    exact hsel _
  have hbuilt : ∀ SEL : List Sim.Investment, (∀ x ∈ SEL, x.moic = 0) →
      (∀ p ∈ (List.foldl (Sim.stepInvestment false bi) ([], 0, false) SEL).1, p.2 = 0) ∧
        (List.foldl (Sim.stepInvestment false bi) ([], 0, false) SEL).2.2 = false :=
    fun SEL hS => buildState_zero bi SEL hS ([], 0, false)
      (fun p hp => absurd hp (List.not_mem_nil p)) rfl
  simp only [Sim.run_single_simulation, Sim.generate_portfolio_size,
    if_neg (not_lt.mpr hstd), Sim.select_investments, if_neg hlen,
    Sim.buildCashFlows]
  refine ⟨_, _, rfl, ?_, ?_⟩
  · exact (irrPair_zero _ _ _ _ ((hbuilt _ (hmap _)).2) ((hbuilt _ (hmap _)).1)).1
  · exact (irrPair_zero _ _ _ _ ((hbuilt _ (hmap _)).2) ((hbuilt _ (hmap _)).1)).2

/-- Witness for C10: the zero-schedule Newton conjunct at a one-entry zero
schedule with one million invested, and the driver conjunct on a one-element
zero-MOIC universe with a trivial variate stream. -/
theorem claim_C10_witness :
    ((0 : ℝ) < 1000000 ∧ (∀ p ∈ [((365 : ℕ), (0 : ℝ))], p.2 = 0) ∧
      Sim.calculate_irr [((365 : ℕ), (0 : ℝ))] 1000000 = 0.1) ∧
    ((0 : ℝ) ≤ (0 : ℝ) ∧
      ([⟨"A", "F", 0, 100, 0, 0⟩] : List Sim.Investment) ≠ [] ∧
      ∃ res kn,
        Sim.run_single_simulation [⟨"A", "F", 0, 100, 0, 0⟩]
          ⟨0, 0, 0, 0, 0, 1, 10, 0, 1⟩ 0
          ⟨fun _ => 0, fun _ _ => 0, fun _ _ h => h⟩ 0 none false true false =
          .ok (res, kn) ∧ res.irr = 0.1 ∧ res.irr_converged = true) := by
  have hflows : ∀ p ∈ [((365 : ℕ), (0 : ℝ))], p.2 = 0 := by
    intro p hp
    rw [List.mem_singleton.mp hp]
  have hmoic : ∀ x ∈ ([⟨"A", "F", 0, 100, 0, 0⟩] : List Sim.Investment),
      x.moic = 0 := by
    intro x hx
    rw [List.mem_singleton.mp hx]
  refine ⟨⟨by norm_num, hflows, claim_C10_zero_flows.2.1 _ 1000000 (by norm_num) hflows⟩,
    le_refl 0, by simp, ?_⟩
  exact claim_C10_zero_flows.2.2 [⟨"A", "F", 0, 100, 0, 0⟩]
    ⟨0, 0, 0, 0, 0, 1, 10, 0, 1⟩ 0 ⟨fun _ => 0, fun _ _ => 0, fun _ _ h => h⟩ 0
    none false true (le_refl 0) (by simp) hmoic

/-- The result sequence of the Monte Carlo loop does not depend on the
progress-callback flag or on the progress accumulator. -/
theorem runLoop_results_indep (inv : List Sim.Investment)
    (cfg : Sim.SimulationConfiguration) (rs : Sim.RandomState)
    (bi : Option (ℤ → ℤ → Except String (ℝ × ℝ))) (ed ac ua cb1 cb2 : Bool) :
    ∀ (fuel i k : ℕ) (acc : List Sim.SimulationResult) (p1 p2 : List ℝ),
      Sim.resultsOf (Sim.runLoop inv cfg rs bi ed ac ua cb1 fuel i k acc p1) =
      Sim.resultsOf (Sim.runLoop inv cfg rs bi ed ac ua cb2 fuel i k acc p2) := by
  intro fuel
  induction fuel with
  | zero => intro i k acc p1 p2; rfl
  | succ n ih =>
    intro i k acc p1 p2
    rw [Sim.runLoop, Sim.runLoop]
    cases hr : Sim.run_single_simulation inv cfg i rs k bi ed ac ua with
    | error e => rfl
    | ok val => exact ih (i + 1) val.2 (val.1 :: acc) _ _

/-- Claim C1: two driver calls whose simulation inputs (universe, config,
beta index, flags and the seed-42 variate stream) coincide return identical
result sequences, for any combination of supplied or omitted progress
callbacks — the callback can only extend the reported-progress trace, never
the results. -/
theorem claim_C1_driver_determinism :
    ∀ (inv inv₂ : List Sim.Investment)
      (cfg cfg₂ : Sim.SimulationConfiguration)
      (bi bi₂ : Option (ℤ → ℤ → Except String (ℝ × ℝ)))
      (ed ed₂ ac ac₂ ua ua₂ : Bool) (rs rs₂ : Sim.RandomState) (cb1 cb2 : Bool),
      inv = inv₂ → cfg = cfg₂ → bi = bi₂ → ed = ed₂ → ac = ac₂ → ua = ua₂ →
      rs = rs₂ →
      Sim.resultsOf (Sim.run_monte_carlo_simulation inv cfg bi ed ac ua cb1 rs) =
      Sim.resultsOf
        (Sim.run_monte_carlo_simulation inv₂ cfg₂ bi₂ ed₂ ac₂ ua₂ cb2 rs₂) := by
  intro inv inv₂ cfg cfg₂ bi bi₂ ed ed₂ ac ac₂ ua ua₂ rs rs₂ cb1 cb2
  intro h1 h2 h3 h4 h5 h6 h7
  subst h1; subst h2; subst h3; subst h4; subst h5; subst h6; subst h7
  exact runLoop_results_indep inv cfg rs bi ed ac ua cb1 cb2
    cfg.simulation_count 0 0 [] [] []

/-- Witness for C1: a one-investment universe run once with and once without
a progress callback yields the same result sequence. -/
theorem claim_C1_witness :
    Sim.resultsOf (Sim.run_monte_carlo_simulation
      [⟨"A", "F", 0, 100, 2, 0.2⟩] ⟨0, 0, 0, 0, 0, 1, 1, 0, 1⟩ none
      false true false true ⟨fun _ => 0, fun _ _ => 0, fun _ _ h => h⟩) =
    Sim.resultsOf (Sim.run_monte_carlo_simulation
      [⟨"A", "F", 0, 100, 2, 0.2⟩] ⟨0, 0, 0, 0, 0, 1, 1, 0, 1⟩ none
      false true false false ⟨fun _ => 0, fun _ _ => 0, fun _ _ h => h⟩) :=
  claim_C1_driver_determinism _ _ _ _ _ _ _ _ _ _ _ _ _ _ true false
    rfl rfl rfl rfl rfl rfl rfl

/-- Every key of a non-empty schedule is bounded by the folded maximum. -/
theorem le_foldr_max (l : List ℕ) : ∀ x ∈ l, x ≤ l.foldr max 0 := by
  induction l with
  | nil => intro x hx; cases hx
  | cons a t ih =>
    intro x hx
    rw [List.foldr_cons]
    rcases List.mem_cons.mp hx with rfl | hx
    · exact le_max_left _ _
    · exact (ih x hx).trans (le_max_right _ _)

/-- The folded maximum of a non-empty list of days is attained. -/
theorem foldr_max_mem : ∀ l : List ℕ, l ≠ [] → l.foldr max 0 ∈ l
  | [], h => absurd rfl h
  | [a], _ => by simp
  | a :: b :: t, _ => by
    rw [List.foldr_cons]
    rcases le_total ((b :: t).foldr max 0) a with h | h
    · rw [max_eq_left h]
      exact List.mem_cons_self _ _
    · rw [max_eq_right h]
      exact List.mem_cons_of_mem _ (foldr_max_mem (b :: t) (by simp))

/-- Claim C6: the financial-engineering overlay satisfies the stated
formulas — leverage, total capital, time horizon from the latest cash-flow
day, leverage cost, fees, hurdle-based carry and net proceeds — and the net
schedule fed to the IRR solver is the gross schedule scaled by
`net/gross` (positive gross) or zero-filled (non-positive gross); the
net-reconstruction step computes its figures through the same overlay. -/
theorem claim_C6_overlay :
    (∀ (gross years invested : ℝ) (config : Sim.SimulationConfiguration),
      0 < invested →
      (Sim.costFigures gross years invested config).leverage_amount =
          invested * config.leverage_rate ∧
      (Sim.costFigures gross years invested config).total_capital =
          invested + (Sim.costFigures gross years invested config).leverage_amount ∧
      (Sim.costFigures gross years invested config).leverage_cost =
          (Sim.costFigures gross years invested config).leverage_amount *
            config.cost_of_capital * years ∧
      (Sim.costFigures gross years invested config).management_fees =
          (Sim.costFigures gross years invested config).total_capital *
            config.fee_rate * years ∧
      (Sim.costFigures gross years invested config).carry_paid =
          max 0 (gross - (Sim.costFigures gross years invested config).total_capital *
            (1 + config.hurdle_rate * years)) * config.carry_rate ∧
      (Sim.costFigures gross years invested config).net_returned =
          gross - (Sim.costFigures gross years invested config).leverage_cost -
            (Sim.costFigures gross years invested config).management_fees -
            (Sim.costFigures gross years invested config).carry_paid) ∧
    (∀ cfs : List (ℕ × ℝ), cfs ≠ [] →
      (∀ p ∈ cfs, p.1 ≤ Sim.maxDay cfs) ∧ Sim.maxDay cfs ∈ cfs.map Prod.fst) ∧
    (∀ (cfs : List (ℕ × ℝ)) (netR grossR : ℝ), 0 < grossR →
      Sim.netCashFlows cfs (if grossR > 0 then netR / grossR else 0) =
        cfs.map (fun p => (p.1, p.2 * (netR / grossR)))) ∧
    (∀ (cfs : List (ℕ × ℝ)) (netR grossR : ℝ), grossR ≤ 0 →
      Sim.netCashFlows cfs (if grossR > 0 then netR / grossR else 0) =
        cfs.map (fun p => (p.1, (0 : ℝ)))) ∧
    (∀ (g : Sim.SimulationResult) (config : Sim.SimulationConfiguration),
      (Pkg.reconstruct_net_single g config).total_returned =
        (Sim.costFigures g.total_returned
          ((Pkg.scheduleMaxDay g.cash_flow_schedule : ℝ) / 365.25)
          g.total_invested config).net_returned ∧
      (Pkg.reconstruct_net_single g config).fees_paid =
        (Sim.costFigures g.total_returned
          ((Pkg.scheduleMaxDay g.cash_flow_schedule : ℝ) / 365.25)
          g.total_invested config).management_fees ∧
      (Pkg.reconstruct_net_single g config).carry_paid =
        (Sim.costFigures g.total_returned
          ((Pkg.scheduleMaxDay g.cash_flow_schedule : ℝ) / 365.25)
          g.total_invested config).carry_paid ∧
      (Pkg.reconstruct_net_single g config).leverage_cost =
        (Sim.costFigures g.total_returned
          ((Pkg.scheduleMaxDay g.cash_flow_schedule : ℝ) / 365.25)
          g.total_invested config).leverage_cost) := by
  refine ⟨fun gross years invested config _ => ⟨rfl, rfl, rfl, rfl, rfl, rfl⟩,
    ?_, ?_, ?_, fun g config => ⟨rfl, rfl, rfl, rfl⟩⟩
  · intro cfs hne
    have hmap : cfs.map Prod.fst ≠ [] := by
      simpa using hne
    have hday : Sim.maxDay cfs = (cfs.map Prod.fst).foldr max 0 := by
      rw [Sim.maxDay, if_neg]
      simp [List.isEmpty_iff, hne]
    constructor
    · intro p hp
      rw [hday]
      exact le_foldr_max _ p.1 (List.mem_map_of_mem Prod.fst hp)
    · rw [hday]
      exact foldr_max_mem _ hmap
  · intro cfs netR grossR hg
    rw [if_pos hg]
    rfl
  · intro cfs netR grossR hg
    rw [if_neg (not_lt.mpr hg)]
    simp [Sim.netCashFlows]

/-- Witness for C6 at a one-entry schedule and concrete rates. -/
theorem claim_C6_witness :
    (0 : ℝ) < 1 ∧ ([((365 : ℕ), (2 : ℝ))] : List (ℕ × ℝ)) ≠ [] ∧
    (0 : ℝ) < 2 ∧ (-1 : ℝ) ≤ 0 ∧
    ((Sim.costFigures 2 1 1 ⟨0.5, 0.1, 0.02, 0.2, 0.08, 1, 1, 0, 1⟩).leverage_amount =
        1 * (0.5 : ℝ)) ∧
    (∀ p ∈ ([((365 : ℕ), (2 : ℝ))] : List (ℕ × ℝ)),
      p.1 ≤ Sim.maxDay [((365 : ℕ), (2 : ℝ))]) ∧
    (Sim.netCashFlows [((365 : ℕ), (2 : ℝ))] (if (2 : ℝ) > 0 then 1.5 / 2 else 0) =
      [((365 : ℕ), (2 : ℝ))].map (fun p => (p.1, p.2 * ((1.5 : ℝ) / 2)))) ∧
    (Sim.netCashFlows [((365 : ℕ), (2 : ℝ))] (if (-1 : ℝ) > 0 then 1.5 / -1 else 0) =
      [((365 : ℕ), (2 : ℝ))].map (fun p => (p.1, (0 : ℝ)))) :=
  ⟨by norm_num, by simp, by norm_num, by norm_num,
   (claim_C6_overlay.1 2 1 1 ⟨0.5, 0.1, 0.02, 0.2, 0.08, 1, 1, 0, 1⟩ (by norm_num)).1,
   (claim_C6_overlay.2.1 [((365 : ℕ), (2 : ℝ))] (by simp)).1,
   claim_C6_overlay.2.2.1 [((365 : ℕ), (2 : ℝ))] 1.5 2 (by norm_num),
   claim_C6_overlay.2.2.2.1 [((365 : ℕ), (2 : ℝ))] 1.5 (-1) (by norm_num)⟩

/-- Negating every element negates the sum. -/
theorem sum_map_neg (l : List ℝ) : (l.map (fun x => -x)).sum = -l.sum := by
  induction l with
  | nil => simp
  | cons a t ih => simp [ih]; ring

/-- Dividing every element by a constant divides the sum. -/
theorem sum_map_div (l : List ℝ) (c : ℝ) :
    (l.map (fun x => x / c)).sum = l.sum / c := by
  induction l with
  | nil => simp
  | cons a t ih => simp [ih, add_div]

/-- Sum of an affine image of a list. -/
theorem sum_affine (l : List ℝ) (p q : ℝ) :
    (l.map (fun x => p + q * x)).sum = l.length * p + q * l.sum := by
  induction l with
  | nil => simp
  | cons a t ih =>
    simp [ih]
    ring

/-- Pulling a constant factor out of a mapped sum. -/
theorem sum_map_mul_left (l : List ℝ) (k : ℝ) (f : ℝ → ℝ) :
    (l.map (fun x => k * f x)).sum = k * (l.map f).sum := by
  induction l with
  | nil => simp
  | cons a t ih => simp [ih]; ring

/-- A sum of non-negative terms with one positive member is positive. -/
theorem sum_pos_of_mem (l : List ℝ) (h0 : ∀ y ∈ l, 0 ≤ y) (x : ℝ)
    (hx : x ∈ l) (hxpos : 0 < x) : 0 < l.sum := by
  induction l with
  | nil => cases hx
  | cons a t ih =>
    rw [List.sum_cons]
    rcases List.mem_cons.mp hx with rfl | hx
    · have ht : 0 ≤ t.sum :=
        List.sum_nonneg (fun y hy => h0 y (List.mem_cons_of_mem _ hy))
      linarith
    · have ha := h0 a (List.mem_cons_self a t)
      have ht := ih (fun y hy => h0 y (List.mem_cons_of_mem _ hy)) hx
      linarith

/-- Sorting is invariant under permutation of the input. -/
theorem insertionSort_eq_of_perm (l₁ l₂ : List ℝ) (h : l₁.Perm l₂) :
    List.insertionSort (· ≤ ·) l₁ = List.insertionSort (· ≤ ·) l₂ :=
  List.eq_of_perm_of_sorted
    ((List.perm_insertionSort _ l₁).trans
      (h.trans (List.perm_insertionSort _ l₂).symm))
    (List.sorted_insertionSort _ l₁) (List.sorted_insertionSort _ l₂)

/-- Sorting commutes with a monotone map. -/
theorem insertionSort_map_mono (l : List ℝ) (g : ℝ → ℝ) (hg : Monotone g) :
    List.insertionSort (· ≤ ·) (l.map g) =
      (List.insertionSort (· ≤ ·) l).map g :=
  List.eq_of_perm_of_sorted
    ((List.perm_insertionSort _ (l.map g)).trans
      ((List.perm_insertionSort _ l).map g).symm)
    (List.sorted_insertionSort _ (l.map g))
    (List.Pairwise.map g (fun _ _ hab => hg hab)
      (List.sorted_insertionSort _ l))

/-- The sorted arrangement of a negation-symmetric sample is the reversal of
its negation. -/
theorem sorted_symm (l : List ℝ) (h : (l.map (fun x => -x)).Perm l) :
    List.insertionSort (· ≤ ·) l =
      ((List.insertionSort (· ≤ ·) l).map (fun x => -x)).reverse := by
  have hsorted : List.Sorted (· ≤ ·) (List.insertionSort (· ≤ ·) l) :=
    List.sorted_insertionSort _ l
  have ht_sorted : List.Sorted (· ≤ ·)
      (((List.insertionSort (· ≤ ·) l).map (fun x => -x)).reverse) := by
    rw [List.Sorted, List.pairwise_reverse]
    exact List.Pairwise.map _ (fun _ _ hab => neg_le_neg hab) hsorted
  have ht_perm : (((List.insertionSort (· ≤ ·) l).map (fun x => -x)).reverse).Perm
      (List.insertionSort (· ≤ ·) l) :=
    (List.reverse_perm _).trans
      (((List.perm_insertionSort _ l).map _).trans
        (h.trans (List.perm_insertionSort _ l).symm))
  exact (List.eq_of_perm_of_sorted ht_perm ht_sorted hsorted).symm

/-- `getD` through a map, inside bounds. -/
theorem getD_map (s : List ℝ) (f : ℝ → ℝ) (i : ℕ) (hi : i < s.length) :
    (s.map f).getD i 0 = f (s.getD i 0) := by
  rw [List.getD_eq_getElem (s.map f) 0 (by simpa using hi),
    List.getD_eq_getElem s 0 hi, List.getElem_map]

/-- In the sorted arrangement of a negation-symmetric sample, the entry at
position `i` is the negation of the entry mirrored about the middle. -/
theorem sorted_symm_getD (l : List ℝ) (h : (l.map (fun x => -x)).Perm l)
    (i : ℕ) (hi : i < (List.insertionSort (· ≤ ·) l).length) :
    (List.insertionSort (· ≤ ·) l).getD i 0 =
      -((List.insertionSort (· ≤ ·) l).getD
          ((List.insertionSort (· ≤ ·) l).length - 1 - i) 0) := by
  have hi2 : (List.insertionSort (· ≤ ·) l).length - 1 - i <
      (List.insertionSort (· ≤ ·) l).length := by omega
  rw [List.getD_eq_getElem _ 0 hi, List.getD_eq_getElem _ 0 hi2]
  rw [List.getElem_of_eq (sorted_symm l h) hi]
  rw [List.getElem_reverse, List.getElem_map]
  simp only [List.length_map]

/-- Moment-exactness of the antithetic construction: for any symmetric,
zero-sum base sample of length `n` with positive energy, the shuffled,
unit-rescaled and affinely mapped output has mean and median exactly the
target mean and population standard deviation exactly the target sigma. -/
theorem draw_stats_master (n : ℕ) (mean sigma : ℝ) (z1 : List ℝ)
    (shuffle : List ℝ → List ℝ) (hperm : ∀ l, (shuffle l).Perm l)
    (hn : 2 ≤ n) (hlen : z1.length = n) (hsum : z1.sum = 0)
    (hsymm : (z1.map (fun x => -x)).Perm z1)
    (hsq : 0 < (z1.map (fun x => x ^ 2)).sum) (hsig : 0 ≤ sigma) :
    Stats.sampleMean (((shuffle z1).map (fun x => x /
        Real.sqrt (((shuffle z1).map (fun x => x ^ 2)).sum /
          ((shuffle z1).length : ℝ)))).map (fun x => mean + sigma * x)) = mean ∧
    Stats.sampleMedian (((shuffle z1).map (fun x => x /
        Real.sqrt (((shuffle z1).map (fun x => x ^ 2)).sum /
          ((shuffle z1).length : ℝ)))).map (fun x => mean + sigma * x)) = mean ∧
    Stats.sampleStd (((shuffle z1).map (fun x => x /
        Real.sqrt (((shuffle z1).map (fun x => x ^ 2)).sum /
          ((shuffle z1).length : ℝ)))).map (fun x => mean + sigma * x)) = sigma ∧
    |Stats.sampleStd (((shuffle z1).map (fun x => x /
        Real.sqrt (((shuffle z1).map (fun x => x ^ 2)).sum /
          ((shuffle z1).length : ℝ)))).map (fun x => mean + sigma * x)) - sigma| ≤
      1e-9 * sigma := by
  have hp : (shuffle z1).Perm z1 := hperm z1
  set w := shuffle z1 with hw
  have hwlen : w.length = n := hp.length_eq.trans hlen
  have hwsum : w.sum = 0 := hp.sum_eq.trans hsum
  have hSpos : 0 < (w.map (fun x => x ^ 2)).sum := by
    rw [(hp.map _).sum_eq]
    exact hsq
  have hnR : (0 : ℝ) < (n : ℝ) := by
    have : 0 < n := by omega
    exact_mod_cast this
  set c := Real.sqrt ((w.map (fun x => x ^ 2)).sum / (w.length : ℝ)) with hc
  have hdivpos : 0 < (w.map (fun x => x ^ 2)).sum / (w.length : ℝ) := by
    apply div_pos hSpos
    rw [hwlen]
    exact hnR
  have hcpos : 0 < c := by
    rw [hc]
    exact Real.sqrt_pos.mpr hdivpos
  have hc2 : c ^ 2 = (w.map (fun x => x ^ 2)).sum / (n : ℝ) := by
    rw [hc, Real.sq_sqrt (le_of_lt hdivpos), hwlen]
  set out := (w.map (fun x => x / c)).map (fun x => mean + sigma * x) with hout
  have houtlen : out.length = n := by
    rw [hout]
    simp [hwlen]
  have hsum_out : out.sum = (n : ℝ) * mean := by
    rw [hout, sum_affine, List.length_map, hwlen, sum_map_div, hwsum, zero_div,
      mul_zero, add_zero]
  have hmean : Stats.sampleMean out = mean := by
    rw [Stats.sampleMean, hsum_out, houtlen, mul_comm, mul_div_assoc,
      div_self (ne_of_gt hnR), mul_one]
  have hdivmono : Monotone (fun x : ℝ => x / c) :=
    fun x y hxy => (div_le_div_iff_of_pos_right hcpos).mpr hxy
  have haffmono : Monotone (fun x : ℝ => mean + sigma * x) :=
    fun x y hxy => add_le_add_left (mul_le_mul_of_nonneg_left hxy hsig) mean
  have hsort : List.insertionSort (· ≤ ·) out =
      ((List.insertionSort (· ≤ ·) z1).map (fun x => x / c)).map
        (fun x => mean + sigma * x) := by
    rw [hout, insertionSort_map_mono _ _ haffmono, insertionSort_map_mono _ _ hdivmono,
      insertionSort_eq_of_perm _ _ hp]
  have hslen : (List.insertionSort (· ≤ ·) z1).length = n :=
    (List.perm_insertionSort _ z1).length_eq.trans hlen
  have hmed : Stats.sampleMedian out = mean := by
    simp only [Stats.sampleMedian]
    rw [hsort, houtlen]
    by_cases hpar : n % 2 = 1
    · rw [if_pos hpar]
      have hlt : n / 2 < (List.insertionSort (· ≤ ·) z1).length := by
        rw [hslen]; omega
      rw [getD_map _ _ _ (by simpa using hlt), getD_map _ _ _ hlt]
      have hzero : (List.insertionSort (· ≤ ·) z1).getD (n / 2) 0 = 0 := by
        have hrefl := sorted_symm_getD z1 hsymm (n / 2) hlt
        rw [show (List.insertionSort (· ≤ ·) z1).length - 1 - n / 2 = n / 2 by
          rw [hslen]; omega] at hrefl
        linarith
      rw [hzero, zero_div, mul_zero, add_zero]
    · rw [if_neg hpar]
      have hm1 : n / 2 - 1 < (List.insertionSort (· ≤ ·) z1).length := by
        rw [hslen]; omega
      have hm : n / 2 < (List.insertionSort (· ≤ ·) z1).length := by
        rw [hslen]; omega
      rw [getD_map _ _ _ (by simpa using hm1), getD_map _ _ _ hm1,
        getD_map _ _ _ (by simpa using hm), getD_map _ _ _ hm]
      have hrel : (List.insertionSort (· ≤ ·) z1).getD (n / 2 - 1) 0 =
          -((List.insertionSort (· ≤ ·) z1).getD (n / 2) 0) := by
        have hrefl := sorted_symm_getD z1 hsymm (n / 2 - 1) hm1
        rw [show (List.insertionSort (· ≤ ·) z1).length - 1 - (n / 2 - 1) = n / 2 by
          rw [hslen]; omega] at hrefl
        exact hrefl
      rw [hrel]
      ring
  have hstd : Stats.sampleStd out = sigma := by
    rw [Stats.sampleStd]
    have hfun : (fun x => (x - Stats.sampleMean out) ^ 2) =
        fun x => (x - mean) ^ 2 := by rw [hmean]
    rw [hfun]
    have hmm : out.map (fun x => (x - mean) ^ 2) =
        w.map (fun x => sigma ^ 2 / c ^ 2 * x ^ 2) := by
      rw [hout, List.map_map, List.map_map]
      congr 1
      funext x
      show ((mean + sigma * (x / c)) - mean) ^ 2 = sigma ^ 2 / c ^ 2 * x ^ 2
      ring
    rw [hmm, sum_map_mul_left w (sigma ^ 2 / c ^ 2) (fun x => x ^ 2), houtlen]
    have harith : sigma ^ 2 / c ^ 2 * (w.map (fun x => x ^ 2)).sum / (n : ℝ) =
        sigma ^ 2 := by
      rw [hc2]
      field_simp
    rw [harith, Real.sqrt_sq hsig]
  exact ⟨hmean, hmed, hstd, by
    rw [hstd, sub_self, abs_zero]
    exact mul_nonneg (by norm_num) hsig⟩

/-- Claim C2: for every `n_paths >= 2`, target mean and non-negative target
sigma, any non-degenerate half-normal draw and any shuffle permutation, the
sample returned by the exact-moment sampler has sample mean and median equal
to the target mean exactly and sample standard deviation (NumPy
normalisation) equal to the target sigma exactly — in particular within the
claimed `1e-9` relative tolerance. -/
theorem claim_C2_exact_moments :
    ∀ (n : ℕ) (mean sigma : ℝ) (draws : List ℝ) (shuffle : List ℝ → List ℝ),
      2 ≤ n → draws.length = n / 2 → (∃ x ∈ draws, x ≠ 0) → 0 ≤ sigma →
      (∀ l, (shuffle l).Perm l) →
      Stats.sampleMean (Pkg.draw_norm_with_exact_moments n mean sigma draws shuffle) =
        mean ∧
      Stats.sampleMedian (Pkg.draw_norm_with_exact_moments n mean sigma draws shuffle) =
        mean ∧
      Stats.sampleStd (Pkg.draw_norm_with_exact_moments n mean sigma draws shuffle) =
        sigma ∧
      |Stats.sampleStd (Pkg.draw_norm_with_exact_moments n mean sigma draws shuffle) -
        sigma| ≤ 1e-9 * sigma := by
  intro n mean sigma draws shuffle hn hlen hnz hsig hperm
  simp only [Pkg.draw_norm_with_exact_moments]
  set A := draws.map (fun x => |x|) with hA
  have hAlen : A.length = n / 2 := by
    rw [hA, List.length_map, hlen]
  have hz0sum : (A.map (fun x => -x) ++ A).sum = 0 := by
    rw [List.sum_append, sum_map_neg, neg_add_cancel]
  have hinv : (A.map (fun x => -x)).map (fun x => -x) = A := by
    rw [List.map_map]
    have hid : ((fun x : ℝ => -x) ∘ fun x : ℝ => -x) = id := funext fun x => neg_neg x
    rw [hid, List.map_id]
  have hz0symm : ((A.map (fun x => -x) ++ A).map (fun x => -x)).Perm
      (A.map (fun x => -x) ++ A) := by
    rw [List.map_append, hinv]
    exact List.perm_append_comm
  obtain ⟨x, hx, hx0⟩ := hnz
  have hmemA : |x| ∈ A := by
    rw [hA]
    exact List.mem_map_of_mem _ hx
  have hmemz0 : |x| ∈ A.map (fun x => -x) ++ A := List.mem_append_right _ hmemA
  have hxpos : 0 < |x| ^ 2 := pow_pos (abs_pos.mpr hx0) 2
  by_cases hpar : n % 2 = 1
  · rw [if_pos hpar]
    refine draw_stats_master n mean sigma _ shuffle hperm hn ?_ ?_ ?_ ?_ hsig
    · simp only [List.length_append, List.length_map, List.length_cons,
        List.length_nil, hAlen]
      omega
    · rw [List.sum_append, hz0sum]
      simp
    · have hmapz1 : (((A.map (fun x => -x) ++ A) ++ [(0 : ℝ)]).map (fun x => -x)) =
          (A ++ A.map (fun x => -x)) ++ [(0 : ℝ)] := by
        rw [List.map_append, List.map_append, hinv]
        simp
      rw [hmapz1]
      exact List.Perm.append_right _ List.perm_append_comm
    · refine sum_pos_of_mem _ ?_ (|x| ^ 2)
        (List.mem_map_of_mem _ (List.mem_append_left _ hmemz0)) hxpos
      intro y hy
      obtain ⟨u, _, hue⟩ := List.mem_map.mp hy
      rw [← hue]
      exact sq_nonneg u
  · rw [if_neg hpar]
    refine draw_stats_master n mean sigma _ shuffle hperm hn ?_ ?_ hz0symm ?_ hsig
    · simp only [List.length_append, List.length_map, hAlen]
      omega
    · exact hz0sum
    · refine sum_pos_of_mem _ ?_ (|x| ^ 2) (List.mem_map_of_mem _ hmemz0) hxpos
      intro y hy
      obtain ⟨u, _, hue⟩ := List.mem_map.mp hy
      rw [← hue]
      exact sq_nonneg u

/-- Witness for C2: two paths, a single unit half-normal magnitude, the
identity shuffle, target mean 5 and target sigma 2. -/
theorem claim_C2_witness :
    (2 ≤ 2 ∧ ([(1 : ℝ)]).length = 2 / 2 ∧ (∃ x ∈ [(1 : ℝ)], x ≠ 0) ∧
      (0 : ℝ) ≤ 2) ∧
    (Stats.sampleMean (Pkg.draw_norm_with_exact_moments 2 5 2 [1] id) = 5 ∧
      Stats.sampleMedian (Pkg.draw_norm_with_exact_moments 2 5 2 [1] id) = 5 ∧
      Stats.sampleStd (Pkg.draw_norm_with_exact_moments 2 5 2 [1] id) = 2 ∧
      |Stats.sampleStd (Pkg.draw_norm_with_exact_moments 2 5 2 [1] id) - 2| ≤
        1e-9 * 2) :=
  ⟨⟨by norm_num, by norm_num, ⟨1, by simp, one_ne_zero⟩, by norm_num⟩,
   claim_C2_exact_moments 2 5 2 [1] id (by norm_num) (by norm_num)
     ⟨1, by simp, one_ne_zero⟩ (by norm_num) (fun l => List.Perm.refl l)⟩

end Theorems
